import Mathlib

/-!
Shallow embedding of the `nearoverflow` NEAR contract (`src/lib.rs`).

The contract state is a `Ledger` holding a stake map (account id to u128
balance) and a question map (u32 id to `Question`).  The Rust `HashMap`s are
modelled as association lists (`lookupA` / `insertA`), u128 and u32 values as
`Nat` (the spec declares balances unbounded-precision and non-negative, and
the NEAR build aborts on arithmetic overflow rather than wrapping, which the
host turns into a failed call).  A Rust `assert!`/`panic!` aborts the whole
call with no state persisted (the host's atomic-call semantics), so every
operation is a pure function returning `Except CallError`: on `error` the
caller's ledger is unchanged.  Host `Promise::transfer` calls are collected in
an emitted `List Transfer`.
-/

abbrev AccountId := String

/-- A host value transfer emitted by an operation (`Promise::new(..).transfer(..)`). -/
structure Transfer where
  account_id : AccountId
  amount : Nat
deriving Repr, DecidableEq

/-- The `Answer` record of `src/lib.rs`. -/
structure Answer where
  id : Nat
  content : String
  account_id : AccountId
  reward : Nat
  is_correct : Bool
deriving Repr, DecidableEq

/-- The `Question` record of `src/lib.rs`. -/
structure Question where
  content : String
  reward : Nat
  author_account_id : AccountId
  answers : List Answer
deriving Repr, DecidableEq

/-- Association-list lookup, modelling `HashMap::get`. -/
def lookupA {K V : Type} [DecidableEq K] : List (K × V) → K → Option V
  | [], _ => none
  | (k', v) :: rest, k => if k' = k then some v else lookupA rest k

/-- Association-list insert-or-replace, modelling `HashMap::insert`. -/
def insertA {K V : Type} [DecidableEq K] : List (K × V) → K → V → List (K × V)
  | [], k, v => [(k, v)]
  | (k', v') :: rest, k, v =>
    if k' = k then (k, v) :: rest else (k', v') :: insertA rest k v

/-- The stake map: account id to pooled balance (`type Stakes` in the source). -/
abbrev Stakes := List (AccountId × Nat)

/-- The contract state (`struct Ledger`). -/
structure Ledger where
  stakes : Stakes
  questions : List (Nat × Question)
deriving Repr, DecidableEq

/-- `Ledger::default()`: both maps empty. -/
def emptyLedger : Ledger := ⟨[], []⟩

/-- `MIN_QUESTION_REWARD` constant of the source. -/
def MIN_QUESTION_REWARD : Nat := 10

/-- `ANSWER_PRICE` constant of the source. -/
def ANSWER_PRICE : Nat := 1

/-- The failure kinds of the contract: each corresponds to one `assert!` /
`panic!` in the source, which aborts the call. -/
inductive CallError where
  | DepositTooLow
  | QuestionNotFound
  | AnswerNotFound
  | NotAuthor
  | AlreadyResolved
  | SelfReward
  | NoDeposit
  | InsufficientStake
deriving Repr, DecidableEq

/-- `fn add_stake`: `*stakes.entry(account_id).or_insert(0) += amount`. -/
def add_stake (stakes : Stakes) (account_id : AccountId) (amount : Nat) : Stakes :=
  insertA stakes account_id ((lookupA stakes account_id).getD 0 + amount)

/-- `fn award_answer_author`: asserts the stake holder has an entry
(`NoDeposit`, message "Stake holder has no deposit") and a balance covering
`reward` (`InsufficientStake`); then transfers `reward` to the answer author
and decreases the stake holder's balance. -/
def award_answer_author (stakes : Stakes) (stake_holder_id : AccountId)
    (answer : Answer) (reward : Nat) : Except CallError (Stakes × List Transfer) :=
  if (lookupA stakes stake_holder_id).isSome = false then
    .error .NoDeposit
  else if (lookupA stakes stake_holder_id).getD 0 < reward then
    .error .InsufficientStake
  else
    .ok (insertA stakes stake_holder_id ((lookupA stakes stake_holder_id).getD 0 - reward),
         [⟨answer.account_id, reward⟩])

/-- Largest key of a question map: `questions.keys().max().unwrap_or(0)`. -/
def maxKey {V : Type} (m : List (Nat × V)) : Nat :=
  (m.map (·.1)).foldr Nat.max 0

/-- Largest answer id in a list: `answers.iter().map(|a| a.id).max().unwrap_or(0)`. -/
def maxAnswerId (answers : List Answer) : Nat :=
  (answers.map (·.id)).foldr Nat.max 0

/-- Replace the first element with the given id (`iter_mut().find` followed by
in-place mutation of the found element). -/
def updateFirst (f : Answer → Answer) : List Answer → Nat → List Answer
  | [], _ => []
  | a :: rest, aid => if a.id = aid then f a :: rest else a :: updateFirst f rest aid

/-- `Ledger::create_question` (payable): requires
`attached_deposit >= MIN_QUESTION_REWARD`; inserts a question at key
`max + 1` and credits the signer's stake with the deposit.  Returns unit. -/
def create_question (signer_account_id : AccountId) (attached_deposit : Nat)
    (l : Ledger) (content : String) : Except CallError (Ledger × List Transfer × Unit) :=
  if attached_deposit < MIN_QUESTION_REWARD then
    .error .DepositTooLow
  else
    let last_question_id := maxKey l.questions
    .ok (⟨add_stake l.stakes signer_account_id attached_deposit,
          insertA l.questions (last_question_id + 1)
            ⟨content, attached_deposit, signer_account_id, []⟩⟩,
         [], ⟨⟩)

/-- `Ledger::create_answer` (payable): requires the question to exist, then
`attached_deposit >= ANSWER_PRICE`; appends an answer with id `max + 1`,
`reward = 0`, `is_correct = false`.  Returns unit; the deposit is credited
to no balance. -/
def create_answer (signer_account_id : AccountId) (attached_deposit : Nat)
    (l : Ledger) (question_id : Nat) (content : String) :
    Except CallError (Ledger × List Transfer × Unit) :=
  match lookupA l.questions question_id with
  | none => .error .QuestionNotFound
  | some q =>
    if attached_deposit < ANSWER_PRICE then
      .error .DepositTooLow
    else
      let last_answer_id := maxAnswerId q.answers
      let answer : Answer := ⟨last_answer_id + 1, content, signer_account_id, 0, false⟩
      .ok (⟨l.stakes,
            insertA l.questions question_id { q with answers := q.answers ++ [answer] }⟩,
           [], ⟨⟩)

/-- The in-place mutation `upvote_answer` applies to the found answer:
`answer.reward += attached_deposit`. -/
def addReward (d : Nat) (x : Answer) : Answer :=
  { x with reward := x.reward + d }

/-- The in-place mutation `set_correct_answer` applies to the found answer:
`is_correct = true` and `reward += question_reward`. -/
def markCorrect (r : Nat) (x : Answer) : Answer :=
  { x with is_correct := true, reward := x.reward + r }

/-- `Ledger::upvote_answer` (payable): requires `attached_deposit > 0`, the
question, and the answer; transfers the deposit to the answer author and adds
it to the answer's reward.  Returns the updated answer. -/
def upvote_answer (signer_account_id : AccountId) (attached_deposit : Nat)
    (l : Ledger) (question_id answer_id : Nat) :
    Except CallError (Ledger × List Transfer × Answer) :=
  if attached_deposit = 0 then
    .error .DepositTooLow
  else
    match lookupA l.questions question_id with
    | none => .error .QuestionNotFound
    | some q =>
      match q.answers.find? (fun a => a.id = answer_id) with
      | none => .error .AnswerNotFound
      | some a =>
        .ok (⟨l.stakes,
              insertA l.questions question_id
                { q with answers := updateFirst (addReward attached_deposit) q.answers answer_id }⟩,
             [⟨a.account_id, attached_deposit⟩], addReward attached_deposit a)

/-- `Ledger::set_correct_answer`: checks, in source order, question existence,
authorship of the signer, that no answer is already correct, answer existence,
and that the answer author differs from the signer; then debits the signer's
stake by `question.reward` via `award_answer_author` (transferring it to the
answer's author) and marks the answer correct, adding `question.reward` to its
reward.  Returns the updated answer. -/
def set_correct_answer (signer_account_id : AccountId) (l : Ledger)
    (question_id answer_id : Nat) : Except CallError (Ledger × List Transfer × Answer) :=
  match lookupA l.questions question_id with
  | none => .error .QuestionNotFound
  | some q =>
    if q.author_account_id ≠ signer_account_id then
      .error .NotAuthor
    else if (q.answers.filter (fun a => a.is_correct)).length ≠ 0 then
      .error .AlreadyResolved
    else
      let question_reward := q.reward
      match q.answers.find? (fun a => a.id = answer_id) with
      | none => .error .AnswerNotFound
      | some a =>
        if a.account_id = signer_account_id then
          .error .SelfReward
        else
          match award_answer_author l.stakes signer_account_id a question_reward with
          | .error e => .error e
          | .ok (stakes', transfers) =>
            .ok (⟨stakes',
                  insertA l.questions question_id
                    { q with answers := updateFirst (markCorrect question_reward) q.answers answer_id }⟩,
                 transfers, markCorrect question_reward a)

/-- `Ledger::list_questions`: read-only view of the question map. -/
def list_questions (l : Ledger) : List (Nat × Question) := l.questions

/-- One external call to a mutating operation, with the host-supplied signer
and attached deposit. -/
inductive Op where
  | createQuestion (signer : AccountId) (deposit : Nat) (content : String)
  | createAnswer (signer : AccountId) (deposit : Nat) (question_id : Nat) (content : String)
  | upvoteAnswer (signer : AccountId) (deposit : Nat) (question_id answer_id : Nat)
  | setCorrectAnswer (signer : AccountId) (question_id answer_id : Nat)
deriving Repr, DecidableEq

/-- Dispatch an external call, discarding the return value. -/
def applyOp (l : Ledger) : Op → Except CallError (Ledger × List Transfer)
  | .createQuestion signer d c => (create_question signer d l c).map (fun r => (r.1, r.2.1))
  | .createAnswer signer d qid c => (create_answer signer d l qid c).map (fun r => (r.1, r.2.1))
  | .upvoteAnswer signer d qid aid => (upvote_answer signer d l qid aid).map (fun r => (r.1, r.2.1))
  | .setCorrectAnswer signer qid aid =>
    (set_correct_answer signer l qid aid).map (fun r => (r.1, r.2.1))

/-- The ledger after one call: on failure the host aborts the call and the
persisted state is unchanged. -/
def runOp (l : Ledger) (op : Op) : Ledger :=
  match applyOp l op with
  | .ok r => r.1
  | .error _ => l

/-- The ledger after a sequence of calls starting from `l`. -/
def runOps (l : Ledger) (ops : List Op) : Ledger :=
  ops.foldl runOp l

/-- A ledger state reachable from the empty ledger by external calls. -/
def Reachable (l : Ledger) : Prop :=
  ∃ ops : List Op, runOps emptyLedger ops = l

/-- Balance an account's stake reads as: absent entries read as zero
(`unwrap_or(&0)`). -/
def stakeOf (l : Ledger) (acct : AccountId) : Nat :=
  (lookupA l.stakes acct).getD 0

/-- Whether a question already has a correct answer. -/
def Question.resolvedB (q : Question) : Bool :=
  q.answers.any (fun a => a.is_correct)

/-- Contribution of one question-map entry to what the ledger owes `acct`:
its reward if `acct` authored it and it is still unresolved. -/
def contrib (acct : AccountId) (p : Nat × Question) : Nat :=
  if p.2.author_account_id = acct ∧ p.2.resolvedB = false then p.2.reward else 0

/-- Total reward of `acct`'s still-unresolved questions. -/
def owedTo (l : Ledger) (acct : AccountId) : Nat :=
  (l.questions.map (contrib acct)).sum

/-! ### Association-list lemmas -/

theorem lookupA_insertA_self {K V : Type} [DecidableEq K] (m : List (K × V)) (k : K) (v : V) :
    lookupA (insertA m k v) k = some v := by
  induction m with
  | nil => simp [insertA, lookupA]
  | cons p rest ih =>
    obtain ⟨k', v'⟩ := p
    by_cases h : k' = k
    · simp [insertA, lookupA, h]
    · simp [insertA, lookupA, h, ih]

theorem lookupA_insertA_ne {K V : Type} [DecidableEq K] (m : List (K × V)) (k k' : K) (v : V)
    (h : k' ≠ k) : lookupA (insertA m k v) k' = lookupA m k' := by
  induction m with
  | nil => simp [insertA, lookupA, Ne.symm h]
  | cons p rest ih =>
    obtain ⟨k₀, v₀⟩ := p
    by_cases h0 : k₀ = k
    · subst h0
      simp [insertA, lookupA, Ne.symm h]
    · simp [insertA, lookupA, h0, ih]

theorem mem_of_lookupA {K V : Type} [DecidableEq K] (m : List (K × V)) (k : K) (v : V)
    (h : lookupA m k = some v) : (k, v) ∈ m := by
  induction m with
  | nil => simp [lookupA] at h
  | cons p rest ih =>
    obtain ⟨k', v'⟩ := p
    by_cases h0 : k' = k
    · subst h0
      simp [lookupA] at h
      simp [h]
    · simp only [lookupA, if_neg h0] at h
      exact List.mem_cons_of_mem _ (ih h)

theorem lookupA_eq_none_iff {K V : Type} [DecidableEq K] (m : List (K × V)) (k : K) :
    lookupA m k = none ↔ k ∉ m.map (·.1) := by
  induction m with
  | nil => simp [lookupA]
  | cons p rest ih =>
    obtain ⟨k', v'⟩ := p
    by_cases h0 : k' = k
    · subst h0
      simp [lookupA]
    · simp [lookupA, h0, ih, Ne.symm h0]

theorem keys_insertA {K V : Type} [DecidableEq K] (m : List (K × V)) (k : K) (v : V) :
    (insertA m k v).map (·.1) =
      if k ∈ m.map (·.1) then m.map (·.1) else m.map (·.1) ++ [k] := by
  induction m with
  | nil => simp [insertA]
  | cons p rest ih =>
    obtain ⟨k', v'⟩ := p
    by_cases h0 : k' = k
    · subst h0
      simp [insertA]
    · simp only [insertA, if_neg h0, List.map_cons]
      rw [ih]
      by_cases h1 : k ∈ rest.map (·.1)
      · simp [h1, Ne.symm h0]
      · simp [h1, Ne.symm h0]

theorem keys_nodup_insertA {K V : Type} [DecidableEq K] (m : List (K × V)) (k : K) (v : V)
    (h : (m.map (·.1)).Nodup) : ((insertA m k v).map (·.1)).Nodup := by
  rw [keys_insertA]
  by_cases h1 : k ∈ m.map (·.1)
  · simpa [h1]
  · simpa [h1, List.nodup_append] using h

theorem insertA_fresh {K V : Type} [DecidableEq K] (m : List (K × V)) (k : K) (v : V)
    (h : k ∉ m.map (·.1)) : insertA m k v = m ++ [(k, v)] := by
  induction m with
  | nil => simp [insertA]
  | cons p rest ih =>
    obtain ⟨k', v'⟩ := p
    simp only [List.map_cons, List.mem_cons] at h
    push_neg at h
    simp [insertA, Ne.symm h.1, ih h.2]

theorem sum_map_insertA_fresh {K V : Type} [DecidableEq K] (m : List (K × V)) (k : K) (v : V)
    (f : K × V → Nat) (h : k ∉ m.map (·.1)) :
    ((insertA m k v).map f).sum = (m.map f).sum + f (k, v) := by
  rw [insertA_fresh m k v h]
  simp

theorem sum_map_insertA_found {K V : Type} [DecidableEq K] (m : List (K × V)) (k : K)
    (v w : V) (f : K × V → Nat) (h : lookupA m k = some w) :
    ((insertA m k v).map f).sum + f (k, w) = (m.map f).sum + f (k, v) := by
  induction m with
  | nil => simp [lookupA] at h
  | cons p rest ih =>
    obtain ⟨k', v'⟩ := p
    by_cases h0 : k' = k
    · subst h0
      simp [lookupA] at h
      subst h
      simp [insertA]
      omega
    · simp only [lookupA, if_neg h0] at h
      simp only [insertA, if_neg h0, List.map_cons, List.sum_cons]
      have := ih h
      omega

theorem contrib_le_sum (m : List (Nat × Question)) (k : Nat) (q : Question)
    (acct : AccountId) (h : (k, q) ∈ m) :
    contrib acct (k, q) ≤ (m.map (contrib acct)).sum := by
  exact List.single_le_sum (by simp) _ (List.mem_map_of_mem (contrib acct) h)

/-! ### Max lemmas: freshly assigned ids exceed all existing ones -/

theorem le_foldr_max (xs : List Nat) (x : Nat) (h : x ∈ xs) : x ≤ xs.foldr Nat.max 0 := by
  induction xs with
  | nil => simp at h
  | cons y ys ih =>
    simp only [List.mem_cons] at h
    rcases h with h | h
    · subst h
      simp [Nat.le_max_left]
    · exact le_trans (ih h) (by simp [Nat.le_max_right])

theorem key_le_maxKey {V : Type} (m : List (Nat × V)) (k : Nat) (h : k ∈ m.map (·.1)) :
    k ≤ maxKey m :=
  le_foldr_max _ _ h

theorem maxKey_succ_fresh {V : Type} (m : List (Nat × V)) : maxKey m + 1 ∉ m.map (·.1) := by
  intro h
  have := key_le_maxKey m _ h
  omega

theorem id_le_maxAnswerId (answers : List Answer) (a : Answer) (h : a ∈ answers) :
    a.id ≤ maxAnswerId answers :=
  le_foldr_max _ _ (List.mem_map_of_mem (·.id) h)

/-! ### updateFirst lemmas -/

theorem updateFirst_decomp (f : Answer → Answer) (answers : List Answer) (aid : Nat)
    (a : Answer) (h : answers.find? (fun x => x.id = aid) = some a) :
    ∃ l1 l2, answers = l1 ++ a :: l2 ∧ (∀ b ∈ l1, b.id ≠ aid) ∧ a.id = aid ∧
      updateFirst f answers aid = l1 ++ f a :: l2 := by
  induction answers with
  | nil => simp at h
  | cons b rest ih =>
    by_cases h0 : b.id = aid
    · rw [List.find?_cons_of_pos _ (by simp [h0])] at h
      obtain rfl : b = a := by injection h
      exact ⟨[], rest, by simp, by simp, h0, by simp [updateFirst, h0]⟩
    · rw [List.find?_cons_of_neg _ (by simp [h0])] at h
      obtain ⟨l1, l2, he, hne, hid, hu⟩ := ih h
      exact ⟨b :: l1, l2, by simp [he], by simpa [h0] using hne, hid,
        by simp [updateFirst, h0, hu]⟩

theorem updateFirst_of_find?_none (f : Answer → Answer) (answers : List Answer) (aid : Nat)
    (h : answers.find? (fun x => x.id = aid) = none) :
    updateFirst f answers aid = answers := by
  induction answers with
  | nil => simp [updateFirst]
  | cons b rest ih =>
    by_cases h0 : b.id = aid
    · rw [List.find?_cons_of_pos _ (by simp [h0])] at h
      simp at h
    · rw [List.find?_cons_of_neg _ (by simp [h0])] at h
      simp [updateFirst, h0, ih h]

/-! ### Resolution and membership lemmas -/

theorem resolvedB_iff (q : Question) :
    q.resolvedB = true ↔ (q.answers.filter (fun a => a.is_correct)).length ≠ 0 := by
  rw [Question.resolvedB, List.any_eq_true, Ne, List.length_eq_zero, List.filter_eq_nil]
  push_neg
  simp

theorem not_correct_of_not_resolved (q : Question) (h : q.resolvedB = false) :
    ∀ a ∈ q.answers, a.is_correct = false := by
  intro a ha
  by_contra hc
  have : q.resolvedB = true := by
    rw [Question.resolvedB, List.any_eq_true]
    exact ⟨a, ha, by simpa using hc⟩
  simp [this] at h

theorem not_correct_of_filter_len_zero (q : Question)
    (h : (q.answers.filter (fun a => a.is_correct)).length = 0) :
    ∀ a ∈ q.answers, a.is_correct = false := by
  apply not_correct_of_not_resolved
  by_contra hr
  rw [Bool.not_eq_false, resolvedB_iff] at hr
  exact hr h

theorem mem_insertA {K V : Type} [DecidableEq K] (m : List (K × V)) (k : K) (v : V)
    (p : K × V) (h : p ∈ insertA m k v) : p ∈ m ∨ p = (k, v) := by
  induction m with
  | nil => simpa [insertA] using h
  | cons hd rest ih =>
    obtain ⟨k₀, v₀⟩ := hd
    by_cases h0 : k₀ = k
    · subst h0
      simp [insertA] at h
      rcases h with h | h
      · exact Or.inr h
      · exact Or.inl (List.mem_cons_of_mem _ h)
    · simp only [insertA, if_neg h0, List.mem_cons] at h
      rcases h with h | h
      · exact Or.inl (by simp [h])
      · rcases ih h with h | h
        · exact Or.inl (List.mem_cons_of_mem _ h)
        · exact Or.inr h

theorem key_mem_of_mem {K V : Type} (m : List (K × V)) (p : K × V) (h : p ∈ m) :
    p.1 ∈ m.map (·.1) :=
  List.mem_map_of_mem _ h

theorem isSome_of_getD_pos (o : Option Nat) (h : 0 < o.getD 0) : o.isSome = true := by
  cases o with
  | none => simp at h
  | some v => rfl

theorem maxAnswerId_succ_fresh (answers : List Answer) :
    maxAnswerId answers + 1 ∉ answers.map (·.id) := by
  intro h
  have := le_foldr_max _ _ h
  simp only [maxAnswerId] at this
  omega

/-! ### updateFirst preservation lemmas -/

theorem map_updateFirst {β : Type} (f : Answer → Answer) (g : Answer → β)
    (answers : List Answer) (aid : Nat) (h : ∀ x, g (f x) = g x) :
    (updateFirst f answers aid).map g = answers.map g := by
  induction answers with
  | nil => rfl
  | cons b rest ih =>
    by_cases h0 : b.id = aid
    · simp [updateFirst, h0, h]
    · simp [updateFirst, h0, ih]

theorem filter_map_updateFirst {β : Type} (f : Answer → Answer) (g : Answer → β)
    (answers : List Answer) (aid : Nat)
    (h1 : ∀ x, (f x).is_correct = x.is_correct) (h2 : ∀ x, g (f x) = g x) :
    ((updateFirst f answers aid).filter (fun a => a.is_correct)).map g =
      (answers.filter (fun a => a.is_correct)).map g := by
  induction answers with
  | nil => rfl
  | cons b rest ih =>
    by_cases h0 : b.id = aid
    · by_cases hc : b.is_correct
      · simp [updateFirst, h0, List.filter_cons, h1, h2, hc]
      · simp [updateFirst, h0, List.filter_cons, h1, h2, hc]
    · by_cases hc : b.is_correct
      · simp [updateFirst, h0, List.filter_cons, hc, ih]
      · simp [updateFirst, h0, List.filter_cons, hc, ih]

theorem any_updateFirst (f : Answer → Answer) (answers : List Answer) (aid : Nat)
    (h1 : ∀ x, (f x).is_correct = x.is_correct) :
    (updateFirst f answers aid).any (fun a => a.is_correct) =
      answers.any (fun a => a.is_correct) := by
  induction answers with
  | nil => rfl
  | cons b rest ih =>
    by_cases h0 : b.id = aid
    · simp [updateFirst, h0, h1]
    · simp [updateFirst, h0, ih]

theorem mem_updateFirst (f : Answer → Answer) (answers : List Answer) (aid : Nat)
    (b : Answer) (h : b ∈ updateFirst f answers aid) :
    b ∈ answers ∨ ∃ a ∈ answers, b = f a := by
  induction answers with
  | nil => simpa [updateFirst] using h
  | cons c rest ih =>
    by_cases h0 : c.id = aid
    · simp only [updateFirst, if_pos h0, List.mem_cons] at h
      rcases h with h | h
      · exact Or.inr ⟨c, List.mem_cons_self _ _, h⟩
      · exact Or.inl (List.mem_cons_of_mem _ h)
    · simp only [updateFirst, if_neg h0, List.mem_cons] at h
      rcases h with h | h
      · exact Or.inl (by simp [h])
      · rcases ih h with h | h
        · exact Or.inl (List.mem_cons_of_mem _ h)
        · obtain ⟨a, ha, hb⟩ := h
          exact Or.inr ⟨a, List.mem_cons_of_mem _ ha, hb⟩

/-! ### Stake map lemmas -/

theorem lookupA_add_stake_self (s : Stakes) (acct : AccountId) (amt : Nat) :
    lookupA (add_stake s acct amt) acct = some ((lookupA s acct).getD 0 + amt) := by
  simp [add_stake, lookupA_insertA_self]

theorem lookupA_add_stake_ne (s : Stakes) (acct b : AccountId) (amt : Nat) (h : b ≠ acct) :
    lookupA (add_stake s acct amt) b = lookupA s b := by
  simp [add_stake, lookupA_insertA_ne _ _ _ _ h]

/-! ### The reachable-state invariant -/

/-- Invariant maintained by every operation: question keys and per-question
answer ids are duplicate-free, every account's pooled stake balance equals the
total reward of its unresolved questions, every question has at most one
correct answer, no correct answer is authored by its question's author, and
every question's reward is at least `MIN_QUESTION_REWARD`. -/
structure LedgerInv (l : Ledger) : Prop where
  questionsNodup : (l.questions.map (·.1)).Nodup
  balanced : ∀ acct, stakeOf l acct = owedTo l acct
  answersNodup : ∀ p ∈ l.questions, ((p.2.answers.map (·.id)).Nodup)
  atMostOne : ∀ p ∈ l.questions, (p.2.answers.filter (fun a => a.is_correct)).length ≤ 1
  noSelf : ∀ p ∈ l.questions, ∀ a ∈ p.2.answers, a.is_correct = true →
    a.account_id ≠ p.2.author_account_id
  minReward : ∀ p ∈ l.questions, MIN_QUESTION_REWARD ≤ p.2.reward

theorem inv_empty : LedgerInv emptyLedger := by
  refine ⟨by simp [emptyLedger], ?_, by simp [emptyLedger], by simp [emptyLedger],
    by simp [emptyLedger], by simp [emptyLedger]⟩
  intro acct
  simp [stakeOf, owedTo, emptyLedger, lookupA]

/-! ### Characterizations of each operation's outcomes -/

theorem runOp_createQuestion_error (l : Ledger) (s : AccountId) (d : Nat) (c : String)
    (e : CallError) (h : create_question s d l c = .error e) :
    runOp l (.createQuestion s d c) = l := by
  simp [runOp, applyOp, h, Except.map]

theorem runOp_createAnswer_error (l : Ledger) (s : AccountId) (d qid : Nat) (c : String)
    (e : CallError) (h : create_answer s d l qid c = .error e) :
    runOp l (.createAnswer s d qid c) = l := by
  simp [runOp, applyOp, h, Except.map]

theorem runOp_upvote_error (l : Ledger) (s : AccountId) (d qid aid : Nat)
    (e : CallError) (h : upvote_answer s d l qid aid = .error e) :
    runOp l (.upvoteAnswer s d qid aid) = l := by
  simp [runOp, applyOp, h, Except.map]

theorem runOp_setCorrect_error (l : Ledger) (s : AccountId) (qid aid : Nat)
    (e : CallError) (h : set_correct_answer s l qid aid = .error e) :
    runOp l (.setCorrectAnswer s qid aid) = l := by
  simp [runOp, applyOp, h, Except.map]

theorem create_question_ok (s : AccountId) (d : Nat) (l : Ledger) (c : String)
    (h : ¬ d < MIN_QUESTION_REWARD) :
    create_question s d l c = .ok
      (⟨add_stake l.stakes s d,
        insertA l.questions (maxKey l.questions + 1) ⟨c, d, s, []⟩⟩, [], ⟨⟩) := by
  simp [create_question, h]

theorem runOp_createQuestion_ok (l : Ledger) (s : AccountId) (d : Nat) (c : String)
    (h : ¬ d < MIN_QUESTION_REWARD) :
    runOp l (.createQuestion s d c) =
      ⟨add_stake l.stakes s d,
       insertA l.questions (maxKey l.questions + 1) ⟨c, d, s, []⟩⟩ := by
  simp [runOp, applyOp, create_question_ok s d l c h, Except.map]

theorem create_answer_ok (s : AccountId) (d : Nat) (l : Ledger) (qid : Nat) (c : String)
    (q : Question) (hq : lookupA l.questions qid = some q) (h : ¬ d < ANSWER_PRICE) :
    create_answer s d l qid c = .ok
      (⟨l.stakes,
        insertA l.questions qid
          { q with answers := q.answers ++ [⟨maxAnswerId q.answers + 1, c, s, 0, false⟩] }⟩,
       [], ⟨⟩) := by
  simp [create_answer, hq, h]

theorem runOp_createAnswer_ok (l : Ledger) (s : AccountId) (d qid : Nat) (c : String)
    (q : Question) (hq : lookupA l.questions qid = some q) (h : ¬ d < ANSWER_PRICE) :
    runOp l (.createAnswer s d qid c) =
      ⟨l.stakes,
       insertA l.questions qid
         { q with answers := q.answers ++ [⟨maxAnswerId q.answers + 1, c, s, 0, false⟩] }⟩ := by
  simp [runOp, applyOp, create_answer_ok s d l qid c q hq h, Except.map]

theorem upvote_answer_ok (s : AccountId) (d : Nat) (l : Ledger) (qid aid : Nat)
    (q : Question) (a : Answer) (hd : ¬ d = 0)
    (hq : lookupA l.questions qid = some q)
    (ha : q.answers.find? (fun x => x.id = aid) = some a) :
    upvote_answer s d l qid aid = .ok
      (⟨l.stakes,
        insertA l.questions qid
          { q with answers :=
              updateFirst (addReward d) q.answers aid }⟩,
       [⟨a.account_id, d⟩], addReward d a) := by
  simp [upvote_answer, hd, hq, ha]

theorem runOp_upvote_ok (l : Ledger) (s : AccountId) (d qid aid : Nat)
    (q : Question) (a : Answer) (hd : ¬ d = 0)
    (hq : lookupA l.questions qid = some q)
    (ha : q.answers.find? (fun x => x.id = aid) = some a) :
    runOp l (.upvoteAnswer s d qid aid) =
      ⟨l.stakes,
       insertA l.questions qid
         { q with answers := updateFirst (addReward d) q.answers aid }⟩ := by
  simp [runOp, applyOp, upvote_answer_ok s d l qid aid q a hd hq ha, Except.map]

theorem set_correct_answer_ok (s : AccountId) (l : Ledger) (qid aid : Nat)
    (q : Question) (a : Answer)
    (hq : lookupA l.questions qid = some q)
    (hauth : q.author_account_id = s)
    (hnr : (q.answers.filter (fun x => x.is_correct)).length = 0)
    (ha : q.answers.find? (fun x => x.id = aid) = some a)
    (hself : ¬ a.account_id = s)
    (hsome : (lookupA l.stakes s).isSome = true)
    (hbal : ¬ (lookupA l.stakes s).getD 0 < q.reward) :
    set_correct_answer s l qid aid = .ok
      (⟨insertA l.stakes s ((lookupA l.stakes s).getD 0 - q.reward),
        insertA l.questions qid
          { q with answers := updateFirst (markCorrect q.reward) q.answers aid }⟩,
       [⟨a.account_id, q.reward⟩],
       markCorrect q.reward a) := by
  simp [set_correct_answer, hq, hauth, hnr, ha, hself, award_answer_author, hsome, hbal]

theorem runOp_setCorrect_ok (l : Ledger) (s : AccountId) (qid aid : Nat)
    (q : Question) (a : Answer)
    (hq : lookupA l.questions qid = some q)
    (hauth : q.author_account_id = s)
    (hnr : (q.answers.filter (fun x => x.is_correct)).length = 0)
    (ha : q.answers.find? (fun x => x.id = aid) = some a)
    (hself : ¬ a.account_id = s)
    (hsome : (lookupA l.stakes s).isSome = true)
    (hbal : ¬ (lookupA l.stakes s).getD 0 < q.reward) :
    runOp l (.setCorrectAnswer s qid aid) =
      ⟨insertA l.stakes s ((lookupA l.stakes s).getD 0 - q.reward),
       insertA l.questions qid
         { q with answers := updateFirst (markCorrect q.reward) q.answers aid }⟩ := by
  simp [runOp, applyOp, set_correct_answer_ok s l qid aid q a hq hauth hnr ha hself hsome hbal, Except.map]

/-! ### Preservation of the invariant by each operation -/

theorem addReward_fields (d : Nat) (x : Answer) :
    (addReward d x).id = x.id ∧ (addReward d x).is_correct = x.is_correct ∧
    (addReward d x).account_id = x.account_id ∧ (addReward d x).content = x.content :=
  ⟨rfl, rfl, rfl, rfl⟩

theorem markCorrect_fields (r : Nat) (x : Answer) :
    (markCorrect r x).id = x.id ∧ (markCorrect r x).is_correct = true ∧
    (markCorrect r x).account_id = x.account_id ∧ (markCorrect r x).content = x.content :=
  ⟨rfl, rfl, rfl, rfl⟩

theorem inv_createQuestion (l : Ledger) (hInv : LedgerInv l) (s : AccountId) (d : Nat)
    (c : String) : LedgerInv (runOp l (.createQuestion s d c)) := by
  by_cases hd : d < MIN_QUESTION_REWARD
  · rw [runOp_createQuestion_error l s d c .DepositTooLow (by simp [create_question, hd])]
    exact hInv
  · rw [runOp_createQuestion_ok l s d c hd]
    have hfresh := maxKey_succ_fresh l.questions
    refine ⟨keys_nodup_insertA _ _ _ hInv.questionsNodup, ?_, ?_, ?_, ?_, ?_⟩
    · intro acct
      have howed : owedTo ⟨add_stake l.stakes s d,
          insertA l.questions (maxKey l.questions + 1) ⟨c, d, s, []⟩⟩ acct
          = owedTo l acct + contrib acct (maxKey l.questions + 1, ⟨c, d, s, []⟩) := by
        simpa [owedTo] using
          sum_map_insertA_fresh l.questions (maxKey l.questions + 1) ⟨c, d, s, []⟩
            (contrib acct) hfresh
      rw [howed]
      by_cases hacct : s = acct
      · subst hacct
        have hcon : contrib s (maxKey l.questions + 1, ⟨c, d, s, []⟩) = d := by
          simp [contrib, Question.resolvedB]
        have hstk : stakeOf ⟨add_stake l.stakes s d,
            insertA l.questions (maxKey l.questions + 1) ⟨c, d, s, []⟩⟩ s
            = stakeOf l s + d := by
          simp [stakeOf, lookupA_add_stake_self]
        rw [hstk, hcon, hInv.balanced s]
      · have hcon : contrib acct (maxKey l.questions + 1, ⟨c, d, s, []⟩) = 0 := by
          simp [contrib, hacct]
        have hstk : stakeOf ⟨add_stake l.stakes s d,
            insertA l.questions (maxKey l.questions + 1) ⟨c, d, s, []⟩⟩ acct
            = stakeOf l acct := by
          simp [stakeOf, lookupA_add_stake_ne l.stakes s acct d (Ne.symm hacct)]
        rw [hstk, hcon, hInv.balanced acct]
        omega
    · intro p hp
      rcases mem_insertA _ _ _ p hp with h | h
      · exact hInv.answersNodup p h
      · subst h
        simp
    · intro p hp
      rcases mem_insertA _ _ _ p hp with h | h
      · exact hInv.atMostOne p h
      · subst h
        simp
    · intro p hp
      rcases mem_insertA _ _ _ p hp with h | h
      · exact hInv.noSelf p h
      · subst h
        simp
    · intro p hp
      rcases mem_insertA _ _ _ p hp with h | h
      · exact hInv.minReward p h
      · subst h
        simp only
        omega

theorem inv_createAnswer (l : Ledger) (hInv : LedgerInv l) (s : AccountId) (d qid : Nat)
    (c : String) : LedgerInv (runOp l (.createAnswer s d qid c)) := by
  cases hq : lookupA l.questions qid with
  | none =>
    rw [runOp_createAnswer_error l s d qid c .QuestionNotFound (by simp [create_answer, hq])]
    exact hInv
  | some q =>
    by_cases hd : d < ANSWER_PRICE
    · rw [runOp_createAnswer_error l s d qid c .DepositTooLow (by simp [create_answer, hq, hd])]
      exact hInv
    · rw [runOp_createAnswer_ok l s d qid c q hq hd]
      have hmem := mem_of_lookupA _ _ _ hq
      refine ⟨keys_nodup_insertA _ _ _ hInv.questionsNodup, ?_, ?_, ?_, ?_, ?_⟩
      · intro acct
        have hsum := sum_map_insertA_found l.questions qid
          { q with answers := q.answers ++ [⟨maxAnswerId q.answers + 1, c, s, 0, false⟩] } q
          (contrib acct) hq
        have hceq : contrib acct
            (qid, { q with answers := q.answers ++ [⟨maxAnswerId q.answers + 1, c, s, 0, false⟩] })
            = contrib acct (qid, q) := by
          simp [contrib, Question.resolvedB, List.any_append]
        have howed : owedTo ⟨l.stakes, insertA l.questions qid
            { q with answers := q.answers ++ [⟨maxAnswerId q.answers + 1, c, s, 0, false⟩] }⟩ acct
            = owedTo l acct := by
          simp only [owedTo] at hsum ⊢
          omega
        rw [howed]
        exact hInv.balanced acct
      · intro p hp
        rcases mem_insertA _ _ _ p hp with h | h
        · exact hInv.answersNodup p h
        · subst h
          have hnd := hInv.answersNodup _ hmem
          have hfresh := maxAnswerId_succ_fresh q.answers
          simp only [List.map_append, List.map_cons, List.map_nil]
          rw [List.nodup_append]
          exact ⟨hnd, List.nodup_singleton _, by simpa using hfresh⟩
      · intro p hp
        rcases mem_insertA _ _ _ p hp with h | h
        · exact hInv.atMostOne p h
        · subst h
          have h1 := hInv.atMostOne _ hmem
          simpa [List.filter_append] using h1
      · intro p hp
        rcases mem_insertA _ _ _ p hp with h | h
        · exact hInv.noSelf p h
        · subst h
          intro a ha hc
          simp only [List.mem_append, List.mem_singleton] at ha
          rcases ha with ha | ha
          · exact hInv.noSelf _ hmem a ha hc
          · subst ha
            simp at hc
      · intro p hp
        rcases mem_insertA _ _ _ p hp with h | h
        · exact hInv.minReward p h
        · subst h
          exact hInv.minReward (qid, q) hmem

theorem inv_upvote (l : Ledger) (hInv : LedgerInv l) (s : AccountId) (d qid aid : Nat) :
    LedgerInv (runOp l (.upvoteAnswer s d qid aid)) := by
  by_cases hd : d = 0
  · rw [runOp_upvote_error l s d qid aid .DepositTooLow (by simp [upvote_answer, hd])]
    exact hInv
  · cases hq : lookupA l.questions qid with
    | none =>
      rw [runOp_upvote_error l s d qid aid .QuestionNotFound (by simp [upvote_answer, hd, hq])]
      exact hInv
    | some q =>
      cases ha : q.answers.find? (fun x => x.id = aid) with
      | none =>
        rw [runOp_upvote_error l s d qid aid .AnswerNotFound
          (by simp [upvote_answer, hd, hq, ha])]
        exact hInv
      | some a =>
        rw [runOp_upvote_ok l s d qid aid q a hd hq ha]
        have hmem := mem_of_lookupA _ _ _ hq
        refine ⟨keys_nodup_insertA _ _ _ hInv.questionsNodup, ?_, ?_, ?_, ?_, ?_⟩
        · intro acct
          have hsum := sum_map_insertA_found l.questions qid
            { q with answers := updateFirst (addReward d) q.answers aid } q (contrib acct) hq
          have hres : ({ q with answers := updateFirst (addReward d) q.answers aid }
              : Question).resolvedB = q.resolvedB := by
            simp [Question.resolvedB, any_updateFirst (addReward d) q.answers aid (fun x => rfl)]
          have hceq : contrib acct
              (qid, { q with answers := updateFirst (addReward d) q.answers aid })
              = contrib acct (qid, q) := by
            simp [contrib, hres]
          have howed : owedTo ⟨l.stakes, insertA l.questions qid
              { q with answers := updateFirst (addReward d) q.answers aid }⟩ acct
              = owedTo l acct := by
            simp only [owedTo] at hsum ⊢
            omega
          rw [howed]
          exact hInv.balanced acct
        · intro p hp
          rcases mem_insertA _ _ _ p hp with h | h
          · exact hInv.answersNodup p h
          · subst h
            have hnd := hInv.answersNodup _ hmem
            simpa [map_updateFirst (addReward d) (fun x => x.id) q.answers aid
              (fun x => rfl)] using hnd
        · intro p hp
          rcases mem_insertA _ _ _ p hp with h | h
          · exact hInv.atMostOne p h
          · subst h
            have h1 := hInv.atMostOne _ hmem
            have h2 := filter_map_updateFirst (addReward d) (fun x => x.id) q.answers aid
              (fun x => rfl) (fun x => rfl)
            have h3 := congrArg List.length h2
            simp only [List.length_map] at h3
            simpa [h3] using h1
        · intro p hp
          rcases mem_insertA _ _ _ p hp with h | h
          · exact hInv.noSelf p h
          · subst h
            intro b hb hbc
            simp only at hb ⊢
            rcases mem_updateFirst (addReward d) q.answers aid b hb with h | h
            · exact hInv.noSelf _ hmem b h hbc
            · obtain ⟨a₀, ha₀, rfl⟩ := h
              have hc0 : a₀.is_correct = true := by simpa [addReward] using hbc
              have := hInv.noSelf _ hmem a₀ ha₀ hc0
              simpa [addReward] using this
        · intro p hp
          rcases mem_insertA _ _ _ p hp with h | h
          · exact hInv.minReward p h
          · subst h
            exact hInv.minReward (qid, q) hmem

theorem inv_setCorrect (l : Ledger) (hInv : LedgerInv l) (s : AccountId) (qid aid : Nat) :
    LedgerInv (runOp l (.setCorrectAnswer s qid aid)) := by
  cases hq : lookupA l.questions qid with
  | none =>
    rw [runOp_setCorrect_error l s qid aid .QuestionNotFound (by simp [set_correct_answer, hq])]
    exact hInv
  | some q =>
    by_cases hauth : q.author_account_id = s
    case neg =>
      rw [runOp_setCorrect_error l s qid aid .NotAuthor
        (by simp [set_correct_answer, hq, hauth])]
      exact hInv
    case pos =>
    by_cases hnr : (q.answers.filter (fun x => x.is_correct)).length = 0
    case neg =>
      rw [runOp_setCorrect_error l s qid aid .AlreadyResolved
        (by simp [set_correct_answer, hq, hauth, hnr])]
      exact hInv
    case pos =>
    cases ha : q.answers.find? (fun x => x.id = aid) with
    | none =>
      rw [runOp_setCorrect_error l s qid aid .AnswerNotFound
        (by simp [set_correct_answer, hq, hauth, hnr, ha])]
      exact hInv
    | some a =>
    by_cases hself : a.account_id = s
    case pos =>
      rw [runOp_setCorrect_error l s qid aid .SelfReward
        (by simp [set_correct_answer, hq, hauth, hnr, ha, hself])]
      exact hInv
    case neg =>
    cases hsome : (lookupA l.stakes s).isSome with
    | false =>
      rw [runOp_setCorrect_error l s qid aid .NoDeposit
        (by simp [set_correct_answer, hq, hauth, hnr, ha, hself, award_answer_author, hsome])]
      exact hInv
    | true =>
    by_cases hbal : (lookupA l.stakes s).getD 0 < q.reward
    case pos =>
      rw [runOp_setCorrect_error l s qid aid .InsufficientStake
        (by simp [set_correct_answer, hq, hauth, hnr, ha, hself, award_answer_author,
          hsome, hbal])]
      exact hInv
    case neg =>
      rw [runOp_setCorrect_ok l s qid aid q a hq hauth hnr ha hself hsome hbal]
      have hmem := mem_of_lookupA _ _ _ hq
      obtain ⟨l1, l2, hdec, hne1, hid, hupd⟩ :=
        updateFirst_decomp (markCorrect q.reward) q.answers aid a ha
      have hall : ∀ b ∈ q.answers, b.is_correct = false := not_correct_of_filter_len_zero q hnr
      have hfil : (updateFirst (markCorrect q.reward) q.answers aid).filter
          (fun x => x.is_correct) = [markCorrect q.reward a] := by
        rw [hupd, List.filter_append]
        have hl1 : l1.filter (fun x => x.is_correct) = [] := by
          rw [List.filter_eq_nil_iff]
          intro b hb
          have hbq : b ∈ q.answers := by
            rw [hdec]
            exact List.mem_append_left _ hb
          simp [hall b hbq]
        have hl2 : l2.filter (fun x => x.is_correct) = [] := by
          rw [List.filter_eq_nil_iff]
          intro b hb
          have hbq : b ∈ q.answers := by
            rw [hdec]
            exact List.mem_append_right _ (List.mem_cons_of_mem _ hb)
          simp [hall b hbq]
        rw [hl1, List.filter_cons]
        simp [markCorrect, hl2]
      have hres' : ({ q with answers := updateFirst (markCorrect q.reward) q.answers aid }
          : Question).resolvedB = true := by
        rw [resolvedB_iff]
        simp [hfil]
      have hresq : q.resolvedB = false := by
        by_contra hc
        rw [Bool.not_eq_false] at hc
        exact (resolvedB_iff q).mp hc hnr
      refine ⟨keys_nodup_insertA _ _ _ hInv.questionsNodup, ?_, ?_, ?_, ?_, ?_⟩
      · intro acct
        have hsum := sum_map_insertA_found l.questions qid
          { q with answers := updateFirst (markCorrect q.reward) q.answers aid } q
          (contrib acct) hq
        have hc' : contrib acct
            (qid, { q with answers := updateFirst (markCorrect q.reward) q.answers aid })
            = 0 := by
          simp [contrib, hres']
        by_cases hacct : s = acct
        · subst hacct
          have hcq : contrib s (qid, q) = q.reward := by
            simp [contrib, hauth, hresq]
          have hbal0 := hInv.balanced s
          have hstk : stakeOf ⟨insertA l.stakes s ((lookupA l.stakes s).getD 0 - q.reward),
              insertA l.questions qid
                { q with answers := updateFirst (markCorrect q.reward) q.answers aid }⟩ s
              = stakeOf l s - q.reward := by
            simp [stakeOf, lookupA_insertA_self]
          rw [hstk]
          rw [hc', hcq] at hsum
          simp only [owedTo, stakeOf] at hsum hbal0 ⊢
          omega
        · have hcq : contrib acct (qid, q) = 0 := by
            simp [contrib, hauth, hacct]
          have hstk : stakeOf ⟨insertA l.stakes s ((lookupA l.stakes s).getD 0 - q.reward),
              insertA l.questions qid
                { q with answers := updateFirst (markCorrect q.reward) q.answers aid }⟩ acct
              = stakeOf l acct := by
            simp [stakeOf, lookupA_insertA_ne l.stakes s acct _ (Ne.symm hacct)]
          rw [hstk]
          have hb := hInv.balanced acct
          rw [hc', hcq] at hsum
          simp only [owedTo, stakeOf] at hsum hb ⊢
          omega
      · intro p hp
        rcases mem_insertA _ _ _ p hp with h | h
        · exact hInv.answersNodup p h
        · subst h
          have hnd := hInv.answersNodup _ hmem
          simpa [map_updateFirst (markCorrect q.reward) (fun x => x.id) q.answers aid
            (fun x => rfl)] using hnd
      · intro p hp
        rcases mem_insertA _ _ _ p hp with h | h
        · exact hInv.atMostOne p h
        · subst h
          simp [hfil]
      · intro p hp
        rcases mem_insertA _ _ _ p hp with h | h
        · exact hInv.noSelf p h
        · subst h
          intro b hb hbc
          simp only at hb ⊢
          rw [hupd] at hb
          rcases List.mem_append.mp hb with hbl | hbr
          · have hbq : b ∈ q.answers := by
              rw [hdec]
              exact List.mem_append_left _ hbl
            rw [hall b hbq] at hbc
            simp at hbc
          · rcases List.mem_cons.mp hbr with hbe | hbl2
            · subst hbe
              simpa [markCorrect, hauth] using hself
            · have hbq : b ∈ q.answers := by
                rw [hdec]
                exact List.mem_append_right _ (List.mem_cons_of_mem _ hbl2)
              rw [hall b hbq] at hbc
              simp at hbc
      · intro p hp
        rcases mem_insertA _ _ _ p hp with h | h
        · exact hInv.minReward p h
        · subst h
          exact hInv.minReward (qid, q) hmem

theorem inv_runOp (l : Ledger) (hInv : LedgerInv l) (op : Op) : LedgerInv (runOp l op) := by
  cases op with
  | createQuestion s d c => exact inv_createQuestion l hInv s d c
  | createAnswer s d qid c => exact inv_createAnswer l hInv s d qid c
  | upvoteAnswer s d qid aid => exact inv_upvote l hInv s d qid aid
  | setCorrectAnswer s qid aid => exact inv_setCorrect l hInv s qid aid

theorem inv_runOps (l : Ledger) (hInv : LedgerInv l) (ops : List Op) :
    LedgerInv (runOps l ops) := by
  induction ops generalizing l with
  | nil => exact hInv
  | cons op rest ih => exact ih (runOp l op) (inv_runOp l hInv op)

theorem inv_reachable (l : Ledger) (h : Reachable l) : LedgerInv l := by
  obtain ⟨ops, rfl⟩ := h
  exact inv_runOps emptyLedger inv_empty ops

/-! ### The stake-failure branches of set_correct_answer are unreachable -/

theorem setCorrect_no_stake_error (l : Ledger) (hInv : LedgerInv l) (s : AccountId)
    (qid aid : Nat) :
    set_correct_answer s l qid aid ≠ .error .NoDeposit ∧
    set_correct_answer s l qid aid ≠ .error .InsufficientStake := by
  cases hq : lookupA l.questions qid with
  | none =>
    rw [show set_correct_answer s l qid aid = .error .QuestionNotFound from by
      simp [set_correct_answer, hq]]
    constructor <;> simp
  | some q =>
    by_cases hauth : q.author_account_id = s
    case neg =>
      rw [show set_correct_answer s l qid aid = .error .NotAuthor from by
        simp [set_correct_answer, hq, hauth]]
      constructor <;> simp
    case pos =>
    by_cases hnr : (q.answers.filter (fun x => x.is_correct)).length = 0
    case neg =>
      rw [show set_correct_answer s l qid aid = .error .AlreadyResolved from by
        simp [set_correct_answer, hq, hauth, hnr]]
      constructor <;> simp
    case pos =>
    cases ha : q.answers.find? (fun x => x.id = aid) with
    | none =>
      rw [show set_correct_answer s l qid aid = .error .AnswerNotFound from by
        simp [set_correct_answer, hq, hauth, hnr, ha]]
      constructor <;> simp
    | some a =>
    by_cases hself : a.account_id = s
    case pos =>
      rw [show set_correct_answer s l qid aid = .error .SelfReward from by
        simp [set_correct_answer, hq, hauth, hnr, ha, hself]]
      constructor <;> simp
    case neg =>
      have hmem := mem_of_lookupA _ _ _ hq
      have hr := hInv.minReward (qid, q) hmem
      have hresq : q.resolvedB = false := by
        by_contra hc
        rw [Bool.not_eq_false] at hc
        exact (resolvedB_iff q).mp hc hnr
      have hcq : contrib s (qid, q) = q.reward := by
        simp [contrib, hauth, hresq]
      have hle : q.reward ≤ owedTo l s := by
        rw [← hcq]
        exact contrib_le_sum l.questions qid q s hmem
      have hbal0 := hInv.balanced s
      have hbal : ¬ (lookupA l.stakes s).getD 0 < q.reward := by
        simp only [stakeOf] at hbal0
        omega
      have hpos : 0 < (lookupA l.stakes s).getD 0 := by
        simp only [stakeOf] at hbal0
        simp only [MIN_QUESTION_REWARD] at hr
        omega
      have hsome := isSome_of_getD_pos _ hpos
      rw [set_correct_answer_ok s l qid aid q a hq hauth hnr ha hself hsome hbal]
      constructor <;> simp

/-! ### Persistence of a resolved question's correct answer -/

/-- The identifying data (id, author, content) of a question's correct
answers: preserved verbatim by every later operation. -/
def correctCore (q : Question) : List (Nat × AccountId × String) :=
  (q.answers.filter (fun x => x.is_correct)).map (fun x => (x.id, x.account_id, x.content))

theorem correct_persists_runOp (l : Ledger) (hInv : LedgerInv l) (op : Op) (qid : Nat)
    (q : Question) (hq : lookupA l.questions qid = some q) (hres : q.resolvedB = true) :
    ∃ q', lookupA (runOp l op).questions qid = some q' ∧ q'.resolvedB = true ∧
      correctCore q' = correctCore q := by
  cases op with
  | createQuestion s d c =>
    by_cases hd : d < MIN_QUESTION_REWARD
    · rw [runOp_createQuestion_error l s d c .DepositTooLow (by simp [create_question, hd])]
      exact ⟨q, hq, hres, rfl⟩
    · rw [runOp_createQuestion_ok l s d c hd]
      have hk : qid ∈ l.questions.map (·.1) := key_mem_of_mem _ _ (mem_of_lookupA _ _ _ hq)
      have hne : qid ≠ maxKey l.questions + 1 := by
        intro he
        exact maxKey_succ_fresh l.questions (he ▸ hk)
      refine ⟨q, ?_, hres, rfl⟩
      simpa [lookupA_insertA_ne l.questions (maxKey l.questions + 1) qid _ hne] using hq
  | createAnswer s d qid' c =>
    cases hq' : lookupA l.questions qid' with
    | none =>
      rw [runOp_createAnswer_error l s d qid' c .QuestionNotFound
        (by simp [create_answer, hq'])]
      exact ⟨q, hq, hres, rfl⟩
    | some q₀ =>
      by_cases hd : d < ANSWER_PRICE
      · rw [runOp_createAnswer_error l s d qid' c .DepositTooLow
          (by simp [create_answer, hq', hd])]
        exact ⟨q, hq, hres, rfl⟩
      · rw [runOp_createAnswer_ok l s d qid' c q₀ hq' hd]
        by_cases he : qid' = qid
        · subst he
          have heq : q₀ = q := by
            rw [hq'] at hq
            injection hq
          subst heq
          have hany : q₀.answers.any (fun x => x.is_correct) = true := hres
          refine ⟨{ q₀ with answers :=
              q₀.answers ++ [⟨maxAnswerId q₀.answers + 1, c, s, 0, false⟩] },
            by simp [lookupA_insertA_self], ?_, ?_⟩
          · simp [Question.resolvedB, List.any_append, hany]
          · simp [correctCore, List.filter_append]
        · refine ⟨q, ?_, hres, rfl⟩
          simpa [lookupA_insertA_ne l.questions qid' qid _ (Ne.symm he)] using hq
  | upvoteAnswer s d qid' aid' =>
    by_cases hd : d = 0
    · rw [runOp_upvote_error l s d qid' aid' .DepositTooLow (by simp [upvote_answer, hd])]
      exact ⟨q, hq, hres, rfl⟩
    · cases hq' : lookupA l.questions qid' with
      | none =>
        rw [runOp_upvote_error l s d qid' aid' .QuestionNotFound
          (by simp [upvote_answer, hd, hq'])]
        exact ⟨q, hq, hres, rfl⟩
      | some q₀ =>
        cases ha : q₀.answers.find? (fun x => x.id = aid') with
        | none =>
          rw [runOp_upvote_error l s d qid' aid' .AnswerNotFound
            (by simp [upvote_answer, hd, hq', ha])]
          exact ⟨q, hq, hres, rfl⟩
        | some a =>
          rw [runOp_upvote_ok l s d qid' aid' q₀ a hd hq' ha]
          by_cases he : qid' = qid
          · subst he
            have heq : q₀ = q := by
              rw [hq'] at hq
              injection hq
            subst heq
            have hany : q₀.answers.any (fun x => x.is_correct) = true := hres
            refine ⟨{ q₀ with answers := updateFirst (addReward d) q₀.answers aid' },
              by simp [lookupA_insertA_self], ?_, ?_⟩
            · simp [Question.resolvedB,
                any_updateFirst (addReward d) q₀.answers aid' (fun x => rfl), hany]
            · simp [correctCore,
                filter_map_updateFirst (addReward d) (fun x => (x.id, x.account_id, x.content))
                  q₀.answers aid' (fun x => rfl) (fun x => rfl)]
          · refine ⟨q, ?_, hres, rfl⟩
            simpa [lookupA_insertA_ne l.questions qid' qid _ (Ne.symm he)] using hq
  | setCorrectAnswer s qid' aid' =>
    cases hq' : lookupA l.questions qid' with
    | none =>
      rw [runOp_setCorrect_error l s qid' aid' .QuestionNotFound
        (by simp [set_correct_answer, hq'])]
      exact ⟨q, hq, hres, rfl⟩
    | some q₀ =>
      by_cases hauth : q₀.author_account_id = s
      case neg =>
        rw [runOp_setCorrect_error l s qid' aid' .NotAuthor
          (by simp [set_correct_answer, hq', hauth])]
        exact ⟨q, hq, hres, rfl⟩
      case pos =>
      by_cases hnr : (q₀.answers.filter (fun x => x.is_correct)).length = 0
      case neg =>
        rw [runOp_setCorrect_error l s qid' aid' .AlreadyResolved
          (by simp [set_correct_answer, hq', hauth, hnr])]
        exact ⟨q, hq, hres, rfl⟩
      case pos =>
      cases ha : q₀.answers.find? (fun x => x.id = aid') with
      | none =>
        rw [runOp_setCorrect_error l s qid' aid' .AnswerNotFound
          (by simp [set_correct_answer, hq', hauth, hnr, ha])]
        exact ⟨q, hq, hres, rfl⟩
      | some a =>
      by_cases hself : a.account_id = s
      case pos =>
        rw [runOp_setCorrect_error l s qid' aid' .SelfReward
          (by simp [set_correct_answer, hq', hauth, hnr, ha, hself])]
        exact ⟨q, hq, hres, rfl⟩
      case neg =>
      cases hsome : (lookupA l.stakes s).isSome with
      | false =>
        rw [runOp_setCorrect_error l s qid' aid' .NoDeposit
          (by simp [set_correct_answer, hq', hauth, hnr, ha, hself, award_answer_author, hsome])]
        exact ⟨q, hq, hres, rfl⟩
      | true =>
      by_cases hbal : (lookupA l.stakes s).getD 0 < q₀.reward
      case pos =>
        rw [runOp_setCorrect_error l s qid' aid' .InsufficientStake
          (by simp [set_correct_answer, hq', hauth, hnr, ha, hself, award_answer_author,
            hsome, hbal])]
        exact ⟨q, hq, hres, rfl⟩
      case neg =>
        rw [runOp_setCorrect_ok l s qid' aid' q₀ a hq' hauth hnr ha hself hsome hbal]
        by_cases he : qid' = qid
        · subst he
          have heq : q₀ = q := by
            rw [hq'] at hq
            injection hq
          subst heq
          exact absurd ((resolvedB_iff q₀).mp hres hnr) (by simp)
        · refine ⟨q, ?_, hres, rfl⟩
          simpa [lookupA_insertA_ne l.questions qid' qid _ (Ne.symm he)] using hq

theorem correct_persists_runOps (l : Ledger) (hInv : LedgerInv l) (ops : List Op) (qid : Nat)
    (q : Question) (hq : lookupA l.questions qid = some q) (hres : q.resolvedB = true) :
    ∃ q', lookupA (runOps l ops).questions qid = some q' ∧ q'.resolvedB = true ∧
      correctCore q' = correctCore q := by
  induction ops generalizing l q with
  | nil => exact ⟨q, hq, hres, rfl⟩
  | cons op rest ih =>
    obtain ⟨q₁, hq₁, hres₁, hcore₁⟩ := correct_persists_runOp l hInv op qid q hq hres
    obtain ⟨q', hq', hres', hcore'⟩ := ih (runOp l op) (inv_runOp l hInv op) q₁ hq₁ hres₁
    exact ⟨q', hq', hres', by rw [hcore', hcore₁]⟩

theorem filter_eq_single_of_le_one (p : Answer → Bool) (xs : List Answer) (a : Answer)
    (hlen : (xs.filter p).length ≤ 1) (ha : a ∈ xs) (hpa : p a = true) :
    xs.filter p = [a] := by
  have hmemf : a ∈ xs.filter p := List.mem_filter.mpr ⟨ha, hpa⟩
  match hx : xs.filter p with
  | [] =>
    rw [hx] at hmemf
    simp at hmemf
  | [b] =>
    rw [hx] at hmemf
    simp at hmemf
    simp [hmemf]
  | b :: c :: rest =>
    rw [hx] at hlen
    simp at hlen

/-! ### Inversion of the create operations and small helpers -/

theorem create_question_ok_inv (s : AccountId) (d : Nat) (l : Ledger) (c : String)
    (l' : Ledger) (t : List Transfer) (r : Unit)
    (h : create_question s d l c = .ok (l', t, r)) :
    ¬ d < MIN_QUESTION_REWARD ∧
      l' = ⟨add_stake l.stakes s d,
            insertA l.questions (maxKey l.questions + 1) ⟨c, d, s, []⟩⟩ ∧ t = [] := by
  by_cases hd : d < MIN_QUESTION_REWARD
  · rw [show create_question s d l c = .error .DepositTooLow from by
      simp [create_question, hd]] at h
    simp at h
  · rw [create_question_ok s d l c hd] at h
    injection h with h
    exact ⟨hd, (congrArg Prod.fst h).symm, (congrArg (fun p => p.2.1) h).symm⟩

theorem create_answer_ok_inv (s : AccountId) (d : Nat) (l : Ledger) (qid : Nat) (c : String)
    (q : Question) (hq : lookupA l.questions qid = some q)
    (l' : Ledger) (t : List Transfer) (r : Unit)
    (h : create_answer s d l qid c = .ok (l', t, r)) :
    ¬ d < ANSWER_PRICE ∧
      l' = ⟨l.stakes, insertA l.questions qid
        { q with answers := q.answers ++ [⟨maxAnswerId q.answers + 1, c, s, 0, false⟩] }⟩ ∧
      t = [] := by
  by_cases hd : d < ANSWER_PRICE
  · rw [show create_answer s d l qid c = .error .DepositTooLow from by
      simp [create_answer, hq, hd]] at h
    simp at h
  · rw [create_answer_ok s d l qid c q hq hd] at h
    injection h with h
    exact ⟨hd, (congrArg Prod.fst h).symm, (congrArg (fun p => p.2.1) h).symm⟩

theorem updateFirst_preserves_other (f : Answer → Answer) (answers : List Answer) (aid : Nat)
    (b : Answer) (hb : b ∈ answers) (hne : b.id ≠ aid) : b ∈ updateFirst f answers aid := by
  induction answers with
  | nil => simp at hb
  | cons x rest ih =>
    by_cases h0 : x.id = aid
    · simp only [updateFirst, if_pos h0]
      rcases List.mem_cons.mp hb with h | h
      · exact absurd (h ▸ h0) hne
      · exact List.mem_cons_of_mem _ h
    · simp only [updateFirst, if_neg h0]
      rcases List.mem_cons.mp hb with h | h
      · exact h ▸ List.mem_cons_self _ _
      · exact List.mem_cons_of_mem _ (ih h)

theorem map_eq_single {α β : Type} (g : α → β) (xs : List α) (y : β)
    (h : xs.map g = [y]) : ∃ x, xs = [x] ∧ g x = y := by
  cases xs with
  | nil => simp at h
  | cons x rest =>
    cases rest with
    | nil =>
      simp at h
      exact ⟨x, rfl, h⟩
    | cons z zs => simp at h

/-! ### Concrete scenarios from the spec, used to witness the theorems -/

/-- The spec's running example up to (but not including) resolution: alice
posts a question with deposit 10, bob answers (fee 1), robin upvotes with 5. -/
def opsDemo : List Op :=
  [.createQuestion "alice" 10 "How do I look?",
   .createAnswer "bob" 1 1 "Perfect",
   .upvoteAnswer "robin" 5 1 1]

def ledgerDemo : Ledger := runOps emptyLedger opsDemo

/-- The spec's running example including alice resolving in favour of bob. -/
def opsDemoResolved : List Op := opsDemo ++ [.setCorrectAnswer "alice" 1 1]

def ledgerDemoResolved : Ledger := runOps emptyLedger opsDemoResolved

/-- A scenario where the question's author answers their own question. -/
def opsSelf : List Op :=
  [.createQuestion "alice" 10 "Q", .createAnswer "alice" 1 1 "my own answer"]

def ledgerSelf : Ledger := runOps emptyLedger opsSelf

/-- The ledger after alice's question and bob's answer, before any upvote. -/
def opsQA : List Op :=
  [.createQuestion "alice" 10 "How do I look?", .createAnswer "bob" 1 1 "Perfect"]

def ledgerQA : Ledger := runOps emptyLedger opsQA

/-- The ledger holding only alice's question. -/
def opsQ : List Op := [.createQuestion "alice" 10 "How do I look?"]

def ledgerQ : Ledger := runOps emptyLedger opsQ

/-! ### Claim theorems -/

/-- C1 (counterexample): the claimed depletion scenario is impossible.  There
is no sequence of calls from the empty ledger after which `set_correct_answer`
fails with `InsufficientStake` — on any question, of any author: every
author's pooled balance always equals the total reward of their unresolved
questions, so it always covers each unresolved question's own reward. -/
theorem insufficient_stake_scenario_impossible :
    ¬ ∃ (ops : List Op) (s : AccountId) (qid aid : Nat),
        set_correct_answer s (runOps emptyLedger ops) qid aid
          = .error .InsufficientStake := by
  rintro ⟨ops, s, qid, aid, h⟩
  have hInv := inv_runOps emptyLedger inv_empty ops
  exact (setCorrect_no_stake_error (runOps emptyLedger ops) hInv s qid aid).2 h

/-- C1 (amended): resolving one question can never deplete the author's pool
below what a different question of the same author needs.  In every state
reached from the empty ledger, the caller's pooled balance equals the total
reward of their unresolved questions, and `set_correct_answer` never fails
with `InsufficientStake` (nor with the companion no-deposit assert). -/
theorem insufficient_stake_never_occurs (ops : List Op) (s : AccountId) (qid aid : Nat) :
    set_correct_answer s (runOps emptyLedger ops) qid aid ≠ .error .InsufficientStake ∧
    set_correct_answer s (runOps emptyLedger ops) qid aid ≠ .error .NoDeposit ∧
    stakeOf (runOps emptyLedger ops) s = owedTo (runOps emptyLedger ops) s := by
  have hInv := inv_runOps emptyLedger inv_empty ops
  obtain ⟨h1, h2⟩ := setCorrect_no_stake_error (runOps emptyLedger ops) hInv s qid aid
  exact ⟨h2, h1, hInv.balanced s⟩

/-- C2: in every ledger state reachable from the empty ledger, each account's
stake balance equals the sum of the rewards of that account's questions with
no correct answer yet, and consequently the `InsufficientStake` branch of
`set_correct_answer` (and its no-deposit companion assert) can never fire. -/
theorem pooled_balance_invariant (l : Ledger) (hR : Reachable l) :
    (∀ acct, stakeOf l acct = owedTo l acct) ∧
    (∀ s qid aid, set_correct_answer s l qid aid ≠ .error .InsufficientStake ∧
      set_correct_answer s l qid aid ≠ .error .NoDeposit) := by
  have hInv := inv_reachable l hR
  refine ⟨hInv.balanced, fun s qid aid => ?_⟩
  obtain ⟨h1, h2⟩ := setCorrect_no_stake_error l hInv s qid aid
  exact ⟨h2, h1⟩

/-- Witness for C2 at the spec's fully played-out scenario. -/
theorem pooled_balance_invariant_witness :
    (∀ acct, stakeOf ledgerDemoResolved acct = owedTo ledgerDemoResolved acct) ∧
    (∀ s qid aid,
      set_correct_answer s ledgerDemoResolved qid aid ≠ .error .InsufficientStake ∧
      set_correct_answer s ledgerDemoResolved qid aid ≠ .error .NoDeposit) :=
  pooled_balance_invariant ledgerDemoResolved ⟨opsDemoResolved, rfl⟩

/-- C5: whenever a mutating operation fails (with any failure kind), the
persisted ledger — the stakes map and the questions map with all nested
answers — equals the state before the call.  Failure aborts the whole call;
the host's atomic-call semantics is modelled by `runOp` keeping `l`. -/
theorem failed_call_leaves_ledger_unchanged (l : Ledger) (op : Op) (e : CallError)
    (h : applyOp l op = .error e) :
    runOp l op = l ∧ (runOp l op).stakes = l.stakes ∧
    (runOp l op).questions = l.questions := by
  refine ⟨?_, ?_, ?_⟩ <;> simp [runOp, h]

/-- Witness for C5: the spec's second `SetCorrectAnswer(1,1)` fails with
`AlreadyResolved` and leaves the state unchanged. -/
theorem failed_call_leaves_ledger_unchanged_witness :
    applyOp ledgerDemoResolved (.setCorrectAnswer "alice" 1 1)
      = .error .AlreadyResolved ∧
    (runOp ledgerDemoResolved (.setCorrectAnswer "alice" 1 1) = ledgerDemoResolved ∧
     (runOp ledgerDemoResolved (.setCorrectAnswer "alice" 1 1)).stakes
       = ledgerDemoResolved.stakes ∧
     (runOp ledgerDemoResolved (.setCorrectAnswer "alice" 1 1)).questions
       = ledgerDemoResolved.questions) :=
  ⟨rfl,
   failed_call_leaves_ledger_unchanged ledgerDemoResolved
     (.setCorrectAnswer "alice" 1 1) .AlreadyResolved rfl⟩

/-- C6: in every reachable state, no question has a correct answer authored by
the question's own author; and `set_correct_answer` fails with `SelfReward`
whenever the selected answer's author equals the caller (who must be the
question's author for the call to get that far). -/
theorem no_self_reward_invariant (l : Ledger) (hR : Reachable l) :
    (∀ p ∈ l.questions, ∀ a ∈ p.2.answers, a.is_correct = true →
      a.account_id ≠ p.2.author_account_id) ∧
    (∀ s qid aid q a, lookupA l.questions qid = some q → q.author_account_id = s →
      (q.answers.filter (fun x => x.is_correct)).length = 0 →
      q.answers.find? (fun x => x.id = aid) = some a → a.account_id = s →
      set_correct_answer s l qid aid = .error .SelfReward) := by
  have hInv := inv_reachable l hR
  refine ⟨hInv.noSelf, ?_⟩
  intro s qid aid q a hq hauth hnr ha hself
  simp [set_correct_answer, hq, hauth, hnr, ha, hself]

/-- Witness for C6: alice answers her own question and tries to reward it. -/
theorem no_self_reward_invariant_witness :
    (∀ p ∈ ledgerSelf.questions, ∀ a ∈ p.2.answers, a.is_correct = true →
      a.account_id ≠ p.2.author_account_id) ∧
    set_correct_answer "alice" ledgerSelf 1 1 = .error .SelfReward := by
  have h := no_self_reward_invariant ledgerSelf ⟨opsSelf, rfl⟩
  exact ⟨h.1, h.2 "alice" 1 1
    ⟨"Q", 10, "alice", [⟨1, "my own answer", "alice", 0, false⟩]⟩
    ⟨1, "my own answer", "alice", 0, false⟩
    (by decide) rfl (by decide) (by decide) rfl⟩

/-- C4: when the question exists, the caller is its author, no answer is yet
correct, the named answer exists with an author different from the caller, and
the caller's balance covers `question.reward`, then `set_correct_answer`
succeeds: it emits one host transfer of `question.reward` to the answer's
author, decreases the caller's balance by `question.reward`, marks the answer
correct, adds exactly `question.reward` to the answer's reward, leaves the
question's own `reward` field unchanged, and returns the updated answer. -/
theorem set_correct_answer_success_spec (l : Ledger) (hR : Reachable l) (s : AccountId)
    (qid aid : Nat) (q : Question) (a : Answer)
    (hq : lookupA l.questions qid = some q)
    (hauth : q.author_account_id = s)
    (hnr : (q.answers.filter (fun x => x.is_correct)).length = 0)
    (ha : q.answers.find? (fun x => x.id = aid) = some a)
    (hself : ¬ a.account_id = s)
    (hbal : q.reward ≤ stakeOf l s) :
    ∃ l', set_correct_answer s l qid aid
        = .ok (l', [⟨a.account_id, q.reward⟩], markCorrect q.reward a) ∧
      stakeOf l' s = stakeOf l s - q.reward ∧
      (markCorrect q.reward a).is_correct = true ∧
      (markCorrect q.reward a).reward = a.reward + q.reward ∧
      (∃ q', lookupA l'.questions qid = some q' ∧ q'.reward = q.reward ∧
        q'.answers = updateFirst (markCorrect q.reward) q.answers aid) := by
  have hInv := inv_reachable l hR
  have hmem := mem_of_lookupA _ _ _ hq
  have hr := hInv.minReward (qid, q) hmem
  have hbal' : ¬ (lookupA l.stakes s).getD 0 < q.reward := by
    simp only [stakeOf] at hbal
    omega
  have hpos : 0 < (lookupA l.stakes s).getD 0 := by
    simp only [stakeOf] at hbal
    simp only [MIN_QUESTION_REWARD] at hr
    omega
  have hsome := isSome_of_getD_pos _ hpos
  refine ⟨_, set_correct_answer_ok s l qid aid q a hq hauth hnr ha hself hsome hbal',
    ?_, rfl, rfl, ?_⟩
  · simp [stakeOf, lookupA_insertA_self]
  · exact ⟨{ q with answers := updateFirst (markCorrect q.reward) q.answers aid },
      by simp [lookupA_insertA_self], rfl, rfl⟩

/-- Witness for C4 at the spec's scenario, just before resolution: alice
resolves bob's upvoted answer. -/
theorem set_correct_answer_success_witness :
    ∃ l', set_correct_answer "alice" ledgerDemo 1 1
        = .ok (l', [⟨"bob", 10⟩], markCorrect 10 ⟨1, "Perfect", "bob", 5, false⟩) ∧
      stakeOf l' "alice" = stakeOf ledgerDemo "alice" - 10 ∧
      (markCorrect 10 (⟨1, "Perfect", "bob", 5, false⟩ : Answer)).is_correct = true ∧
      (markCorrect 10 (⟨1, "Perfect", "bob", 5, false⟩ : Answer)).reward = 5 + 10 ∧
      (∃ q', lookupA l'.questions 1 = some q' ∧ q'.reward = 10 ∧
        q'.answers = updateFirst (markCorrect 10)
          [⟨1, "Perfect", "bob", 5, false⟩] 1) :=
  set_correct_answer_success_spec ledgerDemo ⟨opsDemo, rfl⟩ "alice" 1 1
    ⟨"How do I look?", 10, "alice", [⟨1, "Perfect", "bob", 5, false⟩]⟩
    ⟨1, "Perfect", "bob", 5, false⟩
    (by decide) rfl (by decide) (by decide) (by decide) (by decide)

/-- C9: with the question present and at least the answer fee attached,
`create_answer` leaves the stake map untouched (the fee is credited to no
balance), emits no transfer, and only appends one answer with `reward = 0`
and `is_correct = false` to the named question, leaving the question's other
fields and every other question unchanged. -/
theorem create_answer_frame_spec (s : AccountId) (d : Nat) (l : Ledger) (qid : Nat)
    (c : String) (q : Question)
    (hq : lookupA l.questions qid = some q) (hd : ANSWER_PRICE ≤ d) :
    ∃ l', create_answer s d l qid c = .ok (l', [], ()) ∧
      l'.stakes = l.stakes ∧
      (∀ k, k ≠ qid → lookupA l'.questions k = lookupA l.questions k) ∧
      (∃ q', lookupA l'.questions qid = some q' ∧
        q'.content = q.content ∧ q'.reward = q.reward ∧
        q'.author_account_id = q.author_account_id ∧
        q'.answers = q.answers ++ [⟨maxAnswerId q.answers + 1, c, s, 0, false⟩]) := by
  have hd' : ¬ d < ANSWER_PRICE := by omega
  refine ⟨_, create_answer_ok s d l qid c q hq hd', rfl, ?_, ?_⟩
  · intro k hk
    exact lookupA_insertA_ne l.questions qid k _ hk
  · exact ⟨{ q with answers := q.answers ++ [⟨maxAnswerId q.answers + 1, c, s, 0, false⟩] },
      by simp [lookupA_insertA_self], rfl, rfl, rfl, rfl⟩

/-- Witness for C9: bob answers alice's question for fee 1. -/
theorem create_answer_frame_witness :
    ∃ l', create_answer "bob" 1 ledgerQ 1 "Perfect" = .ok (l', [], ()) ∧
      l'.stakes = ledgerQ.stakes ∧
      (∀ k, k ≠ 1 → lookupA l'.questions k = lookupA ledgerQ.questions k) ∧
      (∃ q', lookupA l'.questions 1 = some q' ∧
        q'.content = "How do I look?" ∧ q'.reward = 10 ∧
        q'.author_account_id = "alice" ∧
        q'.answers = [] ++ [⟨maxAnswerId [] + 1, "Perfect", "bob", 0, false⟩]) :=
  create_answer_frame_spec "bob" 1 ledgerQ 1 "Perfect"
    ⟨"How do I look?", 10, "alice", []⟩ (by decide) (by decide)

/-- C10: `upvote_answer` fails with `DepositTooLow` on a zero deposit, then
`QuestionNotFound` on a missing question, then `AnswerNotFound` on a missing
answer; otherwise it emits one host transfer of the deposit to the answer's
author, adds exactly the deposit to that answer's reward, changes nothing
else in the ledger, and returns the updated answer. -/
theorem upvote_answer_full_spec (s : AccountId) (d : Nat) (l : Ledger) (qid aid : Nat) :
    (d = 0 → upvote_answer s d l qid aid = .error .DepositTooLow) ∧
    (d ≠ 0 → lookupA l.questions qid = none →
      upvote_answer s d l qid aid = .error .QuestionNotFound) ∧
    (∀ q, d ≠ 0 → lookupA l.questions qid = some q →
      q.answers.find? (fun x => x.id = aid) = none →
      upvote_answer s d l qid aid = .error .AnswerNotFound) ∧
    (∀ q a, d ≠ 0 → lookupA l.questions qid = some q →
      q.answers.find? (fun x => x.id = aid) = some a →
      ∃ l', upvote_answer s d l qid aid = .ok (l', [⟨a.account_id, d⟩], addReward d a) ∧
        (addReward d a).reward = a.reward + d ∧
        (addReward d a).is_correct = a.is_correct ∧
        (addReward d a).id = a.id ∧ (addReward d a).account_id = a.account_id ∧
        l'.stakes = l.stakes ∧
        (∀ k, k ≠ qid → lookupA l'.questions k = lookupA l.questions k) ∧
        (∃ q', lookupA l'.questions qid = some q' ∧ q'.content = q.content ∧
          q'.reward = q.reward ∧ q'.author_account_id = q.author_account_id ∧
          q'.answers = updateFirst (addReward d) q.answers aid ∧
          (∀ b ∈ q.answers, b.id ≠ aid → b ∈ q'.answers))) := by
  refine ⟨?_, ?_, ?_, ?_⟩
  · intro hd
    simp [upvote_answer, hd]
  · intro hd hq
    simp [upvote_answer, hd, hq]
  · intro q hd hq ha
    simp [upvote_answer, hd, hq, ha]
  · intro q a hd hq ha
    refine ⟨_, upvote_answer_ok s d l qid aid q a hd hq ha, rfl, rfl, rfl, rfl, rfl, ?_, ?_⟩
    · intro k hk
      exact lookupA_insertA_ne l.questions qid k _ hk
    · refine ⟨{ q with answers := updateFirst (addReward d) q.answers aid },
        by simp [lookupA_insertA_self], rfl, rfl, rfl, rfl, ?_⟩
      intro b hb hbne
      exact updateFirst_preserves_other (addReward d) q.answers aid b hb hbne

/-- Witness for C10: robin upvotes bob's answer with 5, which transfers 5 to
bob and raises the answer reward from 0 to 5. -/
theorem upvote_answer_full_witness :
    ∃ l', upvote_answer "robin" 5 ledgerQA 1 1
        = .ok (l', [⟨"bob", 5⟩], addReward 5 ⟨1, "Perfect", "bob", 0, false⟩) ∧
      (addReward 5 (⟨1, "Perfect", "bob", 0, false⟩ : Answer)).reward = 0 + 5 ∧
      (addReward 5 (⟨1, "Perfect", "bob", 0, false⟩ : Answer)).is_correct = false ∧
      (addReward 5 (⟨1, "Perfect", "bob", 0, false⟩ : Answer)).id = 1 ∧
      (addReward 5 (⟨1, "Perfect", "bob", 0, false⟩ : Answer)).account_id = "bob" ∧
      l'.stakes = ledgerQA.stakes ∧
      (∀ k, k ≠ 1 → lookupA l'.questions k = lookupA ledgerQA.questions k) ∧
      (∃ q', lookupA l'.questions 1 = some q' ∧ q'.content = "How do I look?" ∧
        q'.reward = 10 ∧ q'.author_account_id = "alice" ∧
        q'.answers = updateFirst (addReward 5) [⟨1, "Perfect", "bob", 0, false⟩] 1 ∧
        (∀ b ∈ [(⟨1, "Perfect", "bob", 0, false⟩ : Answer)], b.id ≠ 1 → b ∈ q'.answers)) :=
  (upvote_answer_full_spec "robin" 5 ledgerQA 1 1).2.2.2
    ⟨"How do I look?", 10, "alice", [⟨1, "Perfect", "bob", 0, false⟩]⟩
    ⟨1, "Perfect", "bob", 0, false⟩ (by decide) (by decide) (by decide)

/-- C3: in every reachable state each question has at most one correct
answer; and once an answer of a question is correct, every further sequence
of operations keeps an answer with the same id, author and content as the
unique correct answer of that question — `is_correct` never reverts and no
second answer of the question ever becomes correct (only the answer's reward
may still grow, through upvotes). -/
theorem unique_correct_answer_persists (l : Ledger) (hR : Reachable l) :
    (∀ p ∈ l.questions, (p.2.answers.filter (fun x => x.is_correct)).length ≤ 1) ∧
    (∀ qid q a, lookupA l.questions qid = some q → a ∈ q.answers → a.is_correct = true →
      ∀ ops, ∃ q', lookupA (runOps l ops).questions qid = some q' ∧
        (∃ a', a' ∈ q'.answers ∧ a'.is_correct = true ∧ a'.id = a.id ∧
          a'.account_id = a.account_id ∧ a'.content = a.content) ∧
        (∀ b ∈ q'.answers, b.is_correct = true → b.id = a.id)) := by
  have hInv := inv_reachable l hR
  refine ⟨hInv.atMostOne, ?_⟩
  intro qid q a hq ha hac ops
  have hmem := mem_of_lookupA _ _ _ hq
  have hlen := hInv.atMostOne _ hmem
  have hfq : q.answers.filter (fun x => x.is_correct) = [a] :=
    filter_eq_single_of_le_one _ q.answers a hlen ha hac
  have hres : q.resolvedB = true := by
    rw [resolvedB_iff, hfq]
    simp
  obtain ⟨q', hq', hres', hcore⟩ := correct_persists_runOps l hInv ops qid q hq hres
  have hcoreq : correctCore q = [(a.id, a.account_id, a.content)] := by
    simp [correctCore, hfq]
  rw [hcoreq] at hcore
  obtain ⟨a', hfa', hga'⟩ := map_eq_single _ _ _ hcore
  have ha'mem : a' ∈ q'.answers.filter (fun x => x.is_correct) := by
    rw [hfa']
    exact List.mem_singleton.mpr rfl
  have ha'1 := List.mem_filter.mp ha'mem
  refine ⟨q', hq', ⟨a', ha'1.1, by simpa using ha'1.2,
    congrArg (fun t => t.1) hga', congrArg (fun t => t.2.1) hga',
    congrArg (fun t => t.2.2) hga'⟩, ?_⟩
  intro b hb hbc
  have hbf : b ∈ q'.answers.filter (fun x => x.is_correct) :=
    List.mem_filter.mpr ⟨hb, by simp [hbc]⟩
  rw [hfa'] at hbf
  rw [List.mem_singleton.mp hbf]
  exact congrArg (fun t => t.1) hga'

/-- Witness for C3: after alice resolves bob's answer, a later upvote by
carol keeps that exact answer as the unique correct one. -/
theorem unique_correct_answer_persists_witness :
    (∀ p ∈ ledgerDemoResolved.questions,
      (p.2.answers.filter (fun x => x.is_correct)).length ≤ 1) ∧
    (∃ q', lookupA (runOps ledgerDemoResolved [.upvoteAnswer "carol" 2 1 1]).questions 1
        = some q' ∧
      (∃ a', a' ∈ q'.answers ∧ a'.is_correct = true ∧ a'.id = 1 ∧
        a'.account_id = "bob" ∧ a'.content = "Perfect") ∧
      (∀ b ∈ q'.answers, b.is_correct = true → b.id = 1)) := by
  have h := unique_correct_answer_persists ledgerDemoResolved ⟨opsDemoResolved, rfl⟩
  exact ⟨h.1, h.2 1 ⟨"How do I look?", 10, "alice", [⟨1, "Perfect", "bob", 15, true⟩]⟩
    ⟨1, "Perfect", "bob", 15, true⟩ (by decide) (by decide) rfl
    [.upvoteAnswer "carol" 2 1 1]⟩

/-- C7: in every reachable state question keys are duplicate-free and every
key is below `max + 1` (the id the next creation will assign), and likewise
per question for answer ids; a successful `create_question` inserts exactly
at the fresh id `max + 1` leaving all existing keys' entries unchanged, and a
successful `create_answer` appends exactly the fresh per-question id
`max + 1` leaving every other question unchanged — hence ids are strictly
increasing and unique in their scope, independently across questions. -/
theorem identifier_assignment_spec (l : Ledger) (hR : Reachable l) :
    ((l.questions.map (·.1)).Nodup ∧
      ∀ k ∈ l.questions.map (·.1), k < maxKey l.questions + 1) ∧
    (∀ p ∈ l.questions, (p.2.answers.map (·.id)).Nodup ∧
      ∀ a ∈ p.2.answers, a.id < maxAnswerId p.2.answers + 1) ∧
    (∀ s d c l' t r, create_question s d l c = .ok (l', t, r) →
      lookupA l'.questions (maxKey l.questions + 1) = some ⟨c, d, s, []⟩ ∧
      maxKey l.questions + 1 ∉ l.questions.map (·.1) ∧
      (∀ k, k ≠ maxKey l.questions + 1 → lookupA l'.questions k = lookupA l.questions k)) ∧
    (∀ s d qid c q l' t r, lookupA l.questions qid = some q →
      create_answer s d l qid c = .ok (l', t, r) →
      maxAnswerId q.answers + 1 ∉ q.answers.map (·.id) ∧
      (∃ q', lookupA l'.questions qid = some q' ∧
        q'.answers = q.answers ++ [⟨maxAnswerId q.answers + 1, c, s, 0, false⟩]) ∧
      (∀ k, k ≠ qid → lookupA l'.questions k = lookupA l.questions k)) := by
  have hInv := inv_reachable l hR
  refine ⟨⟨hInv.questionsNodup, ?_⟩, ?_, ?_, ?_⟩
  · intro k hk
    have := key_le_maxKey l.questions k hk
    omega
  · intro p hp
    refine ⟨hInv.answersNodup p hp, ?_⟩
    intro a ha
    have := id_le_maxAnswerId p.2.answers a ha
    omega
  · intro s d c l' t r h
    obtain ⟨hd, hl, ht⟩ := create_question_ok_inv s d l c l' t r h
    subst hl
    exact ⟨by simp [lookupA_insertA_self], maxKey_succ_fresh l.questions,
      fun k hk => lookupA_insertA_ne l.questions _ k _ hk⟩
  · intro s d qid c q l' t r hq h
    obtain ⟨hd, hl, ht⟩ := create_answer_ok_inv s d l qid c q hq l' t r h
    subst hl
    exact ⟨maxAnswerId_succ_fresh q.answers,
      ⟨{ q with answers := q.answers ++ [⟨maxAnswerId q.answers + 1, c, s, 0, false⟩] },
        by simp [lookupA_insertA_self], rfl⟩,
      fun k hk => lookupA_insertA_ne l.questions qid k _ hk⟩

/-- Witness for C7 at a populated state. -/
theorem identifier_assignment_witness :
    ((ledgerDemo.questions.map (·.1)).Nodup ∧
      ∀ k ∈ ledgerDemo.questions.map (·.1), k < maxKey ledgerDemo.questions + 1) ∧
    (∀ p ∈ ledgerDemo.questions, (p.2.answers.map (·.id)).Nodup ∧
      ∀ a ∈ p.2.answers, a.id < maxAnswerId p.2.answers + 1) ∧
    (∀ s d c l' t r, create_question s d ledgerDemo c = .ok (l', t, r) →
      lookupA l'.questions (maxKey ledgerDemo.questions + 1) = some ⟨c, d, s, []⟩ ∧
      maxKey ledgerDemo.questions + 1 ∉ ledgerDemo.questions.map (·.1) ∧
      (∀ k, k ≠ maxKey ledgerDemo.questions + 1 →
        lookupA l'.questions k = lookupA ledgerDemo.questions k)) ∧
    (∀ s d qid c q l' t r, lookupA ledgerDemo.questions qid = some q →
      create_answer s d ledgerDemo qid c = .ok (l', t, r) →
      maxAnswerId q.answers + 1 ∉ q.answers.map (·.id) ∧
      (∃ q', lookupA l'.questions qid = some q' ∧
        q'.answers = q.answers ++ [⟨maxAnswerId q.answers + 1, c, s, 0, false⟩]) ∧
      (∀ k, k ≠ qid → lookupA l'.questions k = lookupA ledgerDemo.questions k)) :=
  identifier_assignment_spec ledgerDemo ⟨opsDemo, rfl⟩

/-- C8 (counterexample): the claim that `create_question` returns the newly
assigned question id is false — the source function returns nothing.  Two
successful calls that assign different ids (1, then 2) both return the same
unit value, so the return value cannot be the assigned id. -/
theorem create_ops_return_no_id :
    ∃ r1 r2 : Ledger × List Transfer × Unit,
      create_question "alice" 10 emptyLedger "Q1" = .ok r1 ∧
      create_question "alice" 10 ledgerDemo "Q2" = .ok r2 ∧
      maxKey r1.1.questions ≠ maxKey r2.1.questions ∧
      r1.2.2 = r2.2.2 :=
  ⟨(⟨add_stake emptyLedger.stakes "alice" 10,
     insertA emptyLedger.questions 1 ⟨"Q1", 10, "alice", []⟩⟩, [], ()),
   (⟨add_stake ledgerDemo.stakes "alice" 10,
     insertA ledgerDemo.questions 2 ⟨"Q2", 10, "alice", []⟩⟩, [], ()),
   rfl, rfl, by decide, rfl⟩

/-- C8 (amended): `create_question` and `create_answer` return only the unit
value; the id they assign is the respective `max + 1`, readable from the
updated state (the updated-answer return of the two reward operations is
covered by C4 and C10). -/
theorem create_ops_assign_next_id (s : AccountId) (d : Nat) (l : Ledger) (c : String) :
    (∀ l' t r, create_question s d l c = .ok (l', t, r) → r = () ∧
      lookupA l'.questions (maxKey l.questions + 1) = some ⟨c, d, s, []⟩) ∧
    (∀ qid q l' t r, lookupA l.questions qid = some q →
      create_answer s d l qid c = .ok (l', t, r) → r = () ∧
      ∃ q', lookupA l'.questions qid = some q' ∧
        q'.answers = q.answers ++ [⟨maxAnswerId q.answers + 1, c, s, 0, false⟩]) := by
  constructor
  · intro l' t r h
    obtain ⟨hd, hl, ht⟩ := create_question_ok_inv s d l c l' t r h
    subst hl
    exact ⟨rfl, by simp [lookupA_insertA_self]⟩
  · intro qid q l' t r hq h
    obtain ⟨hd, hl, ht⟩ := create_answer_ok_inv s d l qid c q hq l' t r h
    subst hl
    exact ⟨rfl, { q with answers := q.answers ++ [⟨maxAnswerId q.answers + 1, c, s, 0, false⟩] },
      by simp [lookupA_insertA_self], rfl⟩

/-- Witness for the amended C8: alice's first question is created under id 1. -/
theorem create_ops_assign_next_id_witness :
    lookupA ledgerQ.questions (maxKey emptyLedger.questions + 1)
      = some ⟨"How do I look?", 10, "alice", []⟩ :=
  ((create_ops_assign_next_id "alice" 10 emptyLedger "How do I look?").1
    ledgerQ [] () rfl).2
